import Mathlib

/-!
Verification of the watch-session continuity subsystem of openanime-cli.

The development shallowly embeds the relevant source functions:

* `src/utils/historyUtils.ts` — the persisted watch-history store
  (`getWatchHistory`, `saveWatchHistory`, `getLastWatchedAnime`,
  `getContinueWatchingSuggestions`, `clearWatchHistory`).
* `src/services/player.ts` — `playVideo`'s final-progress reconciliation
  (the close-handler that reads the progress file).
* `mpv-progress.lua` — the player-side progress script (`write_progress`
  and the `shutdown` event handler).
* `src/core/index.ts` — `saveToHistory`, the post-playback auto-advance
  decision in `handleVideoPlayback`, and `showMainMenu`'s choice list.
* `src/utils/config.ts` — `AppConfig` / `getConfig`.

The backing history file is modelled as a `FileState`: `missing` (the file
does not exist), `corrupt` (reading or parsing throws — the `catch` paths),
or `ok entries` (the parsed array).  JavaScript's stable `Array.sort` is
modelled with `List.insertionSort`, `Math.round` as `⌊q + 1/2⌋`, Lua's
`math.floor` as `Int.floor`, numbers as `ℚ` where they are fractional.
-/

namespace OpenAnime

/-- `WatchHistoryEntry` of `src/utils/historyUtils.ts`.  `watchedAt` is the
timestamp in milliseconds (`Date.getTime()`); `progress`, `timePos` and
`duration` are the integers the store persists. -/
structure WatchHistoryEntry where
  animeId : String
  animeTitle : String
  animeSlug : String
  seasonNumber : Nat
  episodeNumber : Nat
  episodeTitle : String
  fansubName : String
  watchedAt : Nat
  progress : Int
  timePos : Int
  duration : Int
deriving Repr, DecidableEq

/-- State of the backing `watch-history.json` file: absent, unreadable or
unparsable (every throwing path of the store), or a parsed entry array. -/
inductive FileState where
  | missing
  | corrupt
  | ok (entries : List WatchHistoryEntry)
deriving Repr, DecidableEq

/-- The raw entries the file currently persists (`[]` when there are none). -/
def entriesOf : FileState → List WatchHistoryEntry
  | .missing => []
  | .corrupt => []
  | .ok entries => entries

/-- The key match of `saveWatchHistory`'s `findIndex`:
`h.animeId === entry.animeId && h.seasonNumber === entry.seasonNumber &&
h.episodeNumber === entry.episodeNumber`. -/
def sameKey (h entry : WatchHistoryEntry) : Bool :=
  h.animeId == entry.animeId && h.seasonNumber == entry.seasonNumber &&
    h.episodeNumber == entry.episodeNumber

/-- The sort order of `getWatchHistory`'s comparator
`(a, b) => b.watchedAt.getTime() - a.watchedAt.getTime()`: newest first. -/
def byRecency (a b : WatchHistoryEntry) : Prop :=
  b.watchedAt ≤ a.watchedAt

instance : DecidableRel byRecency := fun a b => Nat.decLe b.watchedAt a.watchedAt

instance : IsTotal WatchHistoryEntry byRecency :=
  ⟨fun a b => Nat.le_total b.watchedAt a.watchedAt⟩

instance : IsTrans WatchHistoryEntry byRecency :=
  ⟨fun _ _ _ h1 h2 => le_trans h2 h1⟩

/-- `getWatchHistory(limit?)`: `[]` for a missing file and for every caught
error; otherwise the entries sorted newest-first, truncated to `limit`
when that argument is given and truthy (`limit ? slice : full`, so a
`limit` of `0` is falsy and returns the whole list). -/
def getWatchHistory (s : FileState) (limit : Option Nat) : List WatchHistoryEntry :=
  match s with
  | .missing => []
  | .corrupt => []
  | .ok entries =>
      let processedHistory := List.insertionSort byRecency entries
      match limit with
      | some 0 => processedHistory
      | some n => processedHistory.take n
      | none => processedHistory

/-- `saveWatchHistory(entry)`: load, drop the first entry with the same
(animeId, seasonNumber, episodeNumber) key if present, `unshift` the new
entry, keep the first 50 entries, write the file. -/
def saveWatchHistory (entry : WatchHistoryEntry) (s : FileState) : FileState :=
  let history := getWatchHistory s none
  let history := history.eraseP (fun h => sameKey h entry)
  let trimmedHistory := (entry :: history).take 50
  FileState.ok trimmedHistory

/-- `getLastWatchedAnime()`: head of `getWatchHistory(1)` or none. -/
def getLastWatchedAnime (s : FileState) : Option WatchHistoryEntry :=
  (getWatchHistory s (some 1)).head?

/-- `getAnimeWatchHistory(animeId)`. -/
def getAnimeWatchHistory (animeId : String) (s : FileState) : List WatchHistoryEntry :=
  (getWatchHistory s none).filter (fun entry => entry.animeId == animeId)

/-- `clearWatchHistory()`: unlink the file; a no-op when it is absent. -/
def clearWatchHistory (_s : FileState) : FileState :=
  FileState.missing

/-- The accumulator step of `getContinueWatchingSuggestions`'s `animeMap`:
insert the entry unless its `animeId` is already present (a JS `Map`
keeps first-insertion order, so the map's values are the first occurrence
of each `animeId` in traversal order). -/
def insertIfNew (acc : List WatchHistoryEntry) (entry : WatchHistoryEntry) :
    List WatchHistoryEntry :=
  if acc.any (fun x => x.animeId == entry.animeId) then acc else acc ++ [entry]

/-- `getContinueWatchingSuggestions()`: most recent episode of each distinct
anime, at most 5. -/
def getContinueWatchingSuggestions (s : FileState) : List WatchHistoryEntry :=
  let history := getWatchHistory s none
  (history.foldl insertIfNew []).take 5

/-- At most one persisted record per (animeId, seasonNumber, episodeNumber)
key. -/
def KeyUnique (l : List WatchHistoryEntry) : Prop :=
  l.Pairwise (fun a b => sameKey a b = false)

instance (l : List WatchHistoryEntry) : Decidable (KeyUnique l) :=
  List.instDecidablePairwise l

/-! ## Configuration (`src/utils/config.ts`) -/

/-- `AppConfig` of `src/utils/config.ts`. -/
structure AppConfig where
  defaultQuality : String
  preferredPlayer : String
  downloadPath : String
  autoPlay : Bool
  autoPlayNextEpisode : Bool
  enableHistory : Bool
  enableDiscordRPC : Bool
deriving Repr, DecidableEq

/-- `DEFAULT_CONFIG`. -/
def DEFAULT_CONFIG : AppConfig :=
  { defaultQuality := "720p"
    preferredPlayer := "mpv"
    downloadPath := "./downloads"
    autoPlay := false
    autoPlayNextEpisode := true
    enableHistory := true
    enableDiscordRPC := true }

/-- `getConfig()` (loading from a file is a TODO in the source; it always
returns the defaults). -/
def getConfig : AppConfig := DEFAULT_CONFIG

/-! ## Catalog shapes used by the core flow (`src/services/api.ts`) -/

/-- The fields of `AnimeDetail` the continuity flow reads. -/
structure AnimeDetail where
  id : String
  english : String
  turkish : String
  romaji : String
deriving Repr, DecidableEq

/-- `Episode` (the fields the continuity flow reads). -/
structure Episode where
  title : String
  seasonNumber : Nat
  episodeNumber : Nat
deriving Repr, DecidableEq

/-- One element of `EpisodeDetail.fansubs`. -/
structure Fansub where
  id : String
  name : String
deriving Repr, DecidableEq

/-- The fields of `EpisodeDetail` the continuity flow reads
(`episodeData.hasNextEpisode` and the fansub list). -/
structure EpisodeDetail where
  fansubs : List Fansub
  hasNextEpisode : Bool
deriving Repr, DecidableEq

/-- JavaScript's `a || b || c` on the title strings: the first non-empty
string wins (an empty string is falsy). -/
def firstNonEmpty (a b c : String) : String :=
  if a ≠ "" then a else if b ≠ "" then b else c

/-! ## `saveToHistory` and the playback flow (`src/core/index.ts`) -/

/-- The `historyEntry` object `saveToHistory` builds: progress clamped to
[0, 100], `timePos` and `duration` clamped to ≥ 0, `watchedAt = new Date()`
(the call time `now`), fansub name defaulting to "Unknown". -/
def mkSaveEntry (animeDetail : AnimeDetail) (episodeDetail : EpisodeDetail)
    (slug : String) (episode : Episode) (fansubId : String)
    (progress timePos duration : Int) (now : Nat) : WatchHistoryEntry :=
  let fansub := episodeDetail.fansubs.find? (fun f => f.id == fansubId)
  { animeId := animeDetail.id
    animeTitle := firstNonEmpty animeDetail.english animeDetail.turkish animeDetail.romaji
    animeSlug := slug
    seasonNumber := episode.seasonNumber
    episodeNumber := episode.episodeNumber
    episodeTitle := episode.title
    fansubName := (fansub.map Fansub.name).getD "Unknown"
    watchedAt := now
    progress := max 0 (min 100 progress)
    timePos := max 0 timePos
    duration := max 0 duration }

/-- `saveToHistory(slug, episode, fansubId, progress, timePos, duration)`:
returns early (no write) when the anime or episode detail lookup yields
nothing; otherwise upserts the built entry via `saveWatchHistory`.  The
configuration is not consulted anywhere on this path. -/
def saveToHistory (animeDetail : Option AnimeDetail) (episodeDetail : Option EpisodeDetail)
    (slug : String) (episode : Episode) (fansubId : String)
    (progress timePos duration : Int) (now : Nat) (s : FileState) : FileState :=
  match animeDetail, episodeDetail with
  | some ad, some ed =>
      saveWatchHistory (mkSaveEntry ad ed slug episode fansubId progress timePos duration now) s
  | _, _ => s

/-- `PlaybackProgress` returned by `playVideo`. -/
structure PlaybackProgress where
  progress : Int
  timePos : Int
  duration : Int
deriving Repr, DecidableEq

/-- The two history writes of `handleVideoPlayback`'s `'play'` branch: the
initial `saveToHistory(slug, episode, fansubId, 0)` (with default
`timePos = 0`, `duration = 0`) before `playVideo`, then the final
`saveToHistory(..., playbackResult.progress, playbackResult.timePos,
playbackResult.duration)` after it.  `config` is read in that branch only
for the auto-advance decision; neither write is gated on it. -/
def playBranchWrites (config : AppConfig)
    (animeDetail : Option AnimeDetail) (episodeDetail : Option EpisodeDetail)
    (slug : String) (episode : Episode) (fansubId : String)
    (playbackResult : PlaybackProgress) (t0 t1 : Nat) (s : FileState) : FileState :=
  let _ := config
  let s1 := saveToHistory animeDetail episodeDetail slug episode fansubId 0 0 0 t0 s
  saveToHistory animeDetail episodeDetail slug episode fansubId
    playbackResult.progress playbackResult.timePos playbackResult.duration t1 s1

/-- The `'copy'` branch of `handleVideoPlayback`:
`saveToHistory(slug, episode, fansubId, 100, 0, 0)`. -/
def copyUrlAction (animeDetail : Option AnimeDetail) (episodeDetail : Option EpisodeDetail)
    (slug : String) (episode : Episode) (fansubId : String) (now : Nat)
    (s : FileState) : FileState :=
  saveToHistory animeDetail episodeDetail slug episode fansubId 100 0 0 now s

/-- The post-playback auto-advance decision of `handleVideoPlayback`:
`if (config.autoPlayNextEpisode && playbackResult.progress >= 85 &&
episodeDetail?.episodeData.hasNextEpisode)` then look the episode numbered
`episodeNumber + 1` up in the season's episode list and play it when found.
`some next` = the episode auto-played without prompting; `none` = no
auto-advance. -/
def autoAdvanceTarget (config : AppConfig) (playbackResult : PlaybackProgress)
    (episodeDetail : Option EpisodeDetail) (episodes : List Episode)
    (episode : Episode) : Option Episode :=
  if config.autoPlayNextEpisode && decide (85 ≤ playbackResult.progress) &&
      ((episodeDetail.map EpisodeDetail.hasNextEpisode).getD false) then
    episodes.find? (fun e => e.episodeNumber == episode.episodeNumber + 1)
  else
    none

/-- One entry of `showMainMenu`'s choice list. -/
inductive MenuOption where
  | continueWatch (entry : WatchHistoryEntry)
  | separator
  | history
  | clearHistory
  | search
deriving Repr, DecidableEq

/-- The choice list `showMainMenu` builds: a continue option when
`getLastWatchedAnime()` yields an entry, history/clear options when
`getWatchHistory(5)` is non-empty, and always the search option.  The
configuration is not consulted. -/
def showMainMenuChoices (config : AppConfig) (s : FileState) : List MenuOption :=
  let _ := config
  let lastWatched := getLastWatchedAnime s
  let recentHistory := getWatchHistory s (some 5)
  (match lastWatched with
   | some entry => [MenuOption.continueWatch entry, MenuOption.separator]
   | none => []) ++
  (if 0 < recentHistory.length then
    [MenuOption.history, MenuOption.clearHistory, MenuOption.separator]
   else []) ++
  [MenuOption.search]

/-! ## `playVideo` final-progress reconciliation (`src/services/player.ts`) -/

/-- JavaScript's `Math.round`: round half toward positive infinity. -/
def jsRound (q : ℚ) : ℤ := ⌊q + 1 / 2⌋

/-- The numeric fields of the parsed `temp_progress.json` (a missing field
reads as `0` through `|| 0`). -/
structure ProgressFileData where
  time_pos : ℚ
  duration : ℚ
  percent_pos : ℚ
deriving Repr, DecidableEq

/-- The `'close'` handler of `playVideo`: with no progress file the result
stays all-zero; otherwise `finalTimePos`/`finalDuration` are the rounded
file values, and `finalProgress` is recomputed as
`Math.round((finalTimePos / finalDuration) * 100)` when both are positive,
else taken from the file's raw `percent_pos`. -/
def readFinalProgress (file : Option ProgressFileData) : PlaybackProgress :=
  match file with
  | none => { progress := 0, timePos := 0, duration := 0 }
  | some progressData =>
      let finalTimePos := jsRound progressData.time_pos
      let finalDuration := jsRound progressData.duration
      let finalProgress :=
        if 0 < finalDuration ∧ 0 < finalTimePos then
          jsRound (((finalTimePos : ℚ) / (finalDuration : ℚ)) * 100)
        else
          jsRound progressData.percent_pos
      { progress := finalProgress, timePos := finalTimePos, duration := finalDuration }

/-! ## The mpv progress script (`mpv-progress.lua`) -/

/-- The snapshot object the script writes to the progress file. -/
structure ProgressSnapshot where
  timestamp : ℕ
  time_pos : ℤ
  duration : ℤ
  percent_pos : ℤ
  status : String
  estimated : Bool
deriving Repr, DecidableEq

/-- The live player properties `write_progress` reads
(`mp.get_property_number` with default `0`): `time-pos`, `duration`, the
alternative `length`, and `percent-pos`. -/
structure MpvLiveProps where
  time_pos : ℚ
  duration : ℚ
  length : ℚ
  percent_pos : ℚ
deriving Repr, DecidableEq

/-- `write_progress(status)` of `mpv-progress.lua`: fall back to the
`length` property when `duration` is 0; derive `percent_pos` from
`time_pos / duration` when the raw percent is 0 and both are positive;
when `duration` is still 0 but `time_pos > 0`, estimate against an assumed
24‑minute (1440 s) episode, capped at 99, and flag the snapshot
`estimated`.  Written numbers go through `math.floor`. -/
def write_progress (props : MpvLiveProps) (status : String) (now : ℕ) :
    ProgressSnapshot :=
  let time_pos := props.time_pos
  let duration := if props.duration = 0 then props.length else props.duration
  let percent_pos :=
    if props.percent_pos = 0 ∧ 0 < duration ∧ 0 < time_pos then
      (time_pos / duration) * 100
    else props.percent_pos
  let percent_pos :=
    if duration = 0 ∧ 0 < time_pos then
      min ((time_pos / (24 * 60)) * 100) 99
    else percent_pos
  { timestamp := now
    time_pos := ⌊time_pos⌋
    duration := ⌊duration⌋
    percent_pos := ⌊percent_pos⌋
    status := status
    estimated := decide (duration = 0 ∧ 0 < time_pos) }

/-- The prior snapshot the shutdown handler parses back from the progress
file (a missing field reads as `0` through `or 0`). -/
structure StoredSnapshot where
  time_pos : ℚ
  duration : ℚ
  percent_pos : ℚ
deriving Repr, DecidableEq

/-- The `shutdown` event handler of `mpv-progress.lua`: read the live
properties; only when the live `time-pos` or `duration` is 0, fall back to
the existing snapshot taking the maximum of live and stored values (and
the stored percent when the live percent is 0); recompute the percentage
when it is still 0 and both time and duration are positive; write the
floored values with status `"finished"` and `estimated = false`. -/
def finalizeShutdown (liveTime liveDuration livePercent : ℚ)
    (existing : Option StoredSnapshot) (now : ℕ) : ProgressSnapshot :=
  let current :=
    if liveTime = 0 ∨ liveDuration = 0 then
      match existing with
      | some e =>
          (max liveTime e.time_pos, max liveDuration e.duration,
           if livePercent = 0 then e.percent_pos else livePercent)
      | none => (liveTime, liveDuration, livePercent)
    else (liveTime, liveDuration, livePercent)
  let currentTime := current.1
  let currentDuration := current.2.1
  let currentPercent := current.2.2
  let currentPercent :=
    if currentPercent = 0 ∧ 0 < currentDuration ∧ 0 < currentTime then
      (currentTime / currentDuration) * 100
    else currentPercent
  { timestamp := now
    time_pos := ⌊currentTime⌋
    duration := ⌊currentDuration⌋
    percent_pos := ⌊currentPercent⌋
    status := "finished"
    estimated := false }

/-- Iterated upsert: a sequence of `saveWatchHistory` calls. -/
def upsertSeq (es : List WatchHistoryEntry) (s : FileState) : FileState :=
  es.foldl (fun st entry => saveWatchHistory entry st) s

/-- A sample record for concrete instances: key (A, season 1, episode 1),
with the given progress and timestamp. -/
def sampleEntry (progress : Int) (watchedAt : Nat) : WatchHistoryEntry :=
  { animeId := "A", animeTitle := "Title", animeSlug := "a", seasonNumber := 1,
    episodeNumber := 1, episodeTitle := "Ep 1", fansubName := "Sub",
    watchedAt := watchedAt, progress := progress, timePos := 0, duration := 0 }

/-! ## Lemmas about the history store -/

theorem sameKey_iff {a b : WatchHistoryEntry} :
    sameKey a b = true ↔
      a.animeId = b.animeId ∧ a.seasonNumber = b.seasonNumber ∧
        a.episodeNumber = b.episodeNumber := by
  simp [sameKey, and_assoc]

theorem sameKey_refl (a : WatchHistoryEntry) : sameKey a a = true := by
  simp [sameKey]

theorem sameKey_symm {a b : WatchHistoryEntry} (h : sameKey a b = true) :
    sameKey b a = true := by
  rcases sameKey_iff.mp h with ⟨h1, h2, h3⟩
  exact sameKey_iff.mpr ⟨h1.symm, h2.symm, h3.symm⟩

theorem sameKey_trans {a b c : WatchHistoryEntry} (hab : sameKey a b = true)
    (hbc : sameKey b c = true) : sameKey a c = true := by
  rcases sameKey_iff.mp hab with ⟨h1, h2, h3⟩
  rcases sameKey_iff.mp hbc with ⟨g1, g2, g3⟩
  exact sameKey_iff.mpr ⟨h1.trans g1, h2.trans g2, h3.trans g3⟩

/-- The distinct-key relation is symmetric. -/
theorem distinctKey_symm : ∀ {a b : WatchHistoryEntry},
    sameKey a b = false → sameKey b a = false := by
  intro a b h
  by_contra hba
  rw [Bool.not_eq_false] at hba
  rw [sameKey_symm hba] at h
  cases h

/-- `getWatchHistory` with no limit is a permutation of the raw file
entries. -/
theorem getWatchHistory_perm (s : FileState) :
    List.Perm (getWatchHistory s none) (entriesOf s) := by
  cases s with
  | missing => rfl
  | corrupt => rfl
  | ok entries => exact List.perm_insertionSort byRecency entries

/-- `getWatchHistory` is sorted newest-first for every file state and
limit. -/
theorem getWatchHistory_sorted (s : FileState) (limit : Option Nat) :
    List.Sorted byRecency (getWatchHistory s limit) := by
  cases s with
  | missing => cases limit <;> exact List.Pairwise.nil
  | corrupt => cases limit <;> exact List.Pairwise.nil
  | ok entries =>
      have hsorted := List.sorted_insertionSort byRecency entries
      match limit with
      | none => exact hsorted
      | some 0 => exact hsorted
      | some (n + 1) => exact hsorted.sublist (List.take_sublist _ _)

/-- Key uniqueness transfers along the sort. -/
theorem keyUnique_getWatchHistory {s : FileState} (hU : KeyUnique (entriesOf s)) :
    KeyUnique (getWatchHistory s none) :=
  ((getWatchHistory_perm s).pairwise_iff fun h => distinctKey_symm h).mpr hU

/-- In a key-unique list, after erasing the first record matching `e`'s key
no record matching that key remains. -/
theorem eraseP_sameKey_all_false {l : List WatchHistoryEntry} {e : WatchHistoryEntry}
    (hl : KeyUnique l) :
    ∀ x ∈ l.eraseP (fun h => sameKey h e), sameKey x e = false := by
  induction l with
  | nil => intro x hx; simp [List.eraseP] at hx
  | cons a t ih =>
      rcases List.pairwise_cons.mp hl with ⟨ha, ht⟩
      by_cases hae : sameKey a e = true
      · rw [List.eraseP_cons_of_pos (p := fun h => sameKey h e) hae]
        intro x hx
        by_contra hxe
        rw [Bool.not_eq_false] at hxe
        have hax : sameKey a x = true := sameKey_trans hae (sameKey_symm hxe)
        have := ha x hx
        rw [hax] at this
        cases this
      · rw [List.eraseP_cons_of_neg (p := fun h => sameKey h e) (by simpa using hae)]
        intro x hx
        rcases List.mem_cons.mp hx with rfl | hx
        · exact Bool.eq_false_iff.mpr hae
        · exact ih ht x hx

/-- The raw file contents after an upsert. -/
theorem entriesOf_saveWatchHistory (e : WatchHistoryEntry) (s : FileState) :
    entriesOf (saveWatchHistory e s) =
      e :: ((getWatchHistory s none).eraseP (fun h => sameKey h e)).take 49 := by
  simp [saveWatchHistory, entriesOf]

/-- An upsert preserves key uniqueness of the persisted history. -/
theorem upsert_keyUnique (e : WatchHistoryEntry) (s : FileState)
    (hU : KeyUnique (entriesOf s)) :
    KeyUnique (entriesOf (saveWatchHistory e s)) := by
  rw [entriesOf_saveWatchHistory]
  have hU' := keyUnique_getWatchHistory hU
  have herase := eraseP_sameKey_all_false (e := e) hU'
  refine List.pairwise_cons.mpr ⟨?_, ?_⟩
  · intro x hx
    exact distinctKey_symm (herase x (List.take_sublist _ _ |>.subset hx))
  · exact (hU'.sublist (List.eraseP_sublist _)).sublist (List.take_sublist _ _)

/-- After an upsert of `e` into a key-unique store, `list()` holds exactly
one record with `e`'s key: `e` itself. -/
theorem upsert_filter (e : WatchHistoryEntry) (s : FileState)
    (hU : KeyUnique (entriesOf s)) :
    (getWatchHistory (saveWatchHistory e s) none).filter (fun h => sameKey h e) = [e] := by
  have hU' := keyUnique_getWatchHistory hU
  have herase := eraseP_sameKey_all_false (e := e) hU'
  have hraw : (entriesOf (saveWatchHistory e s)).filter (fun h => sameKey h e) = [e] := by
    rw [entriesOf_saveWatchHistory]
    rw [List.filter_cons_of_pos (p := fun h => sameKey h e) (sameKey_refl e)]
    have : (((getWatchHistory s none).eraseP (fun h => sameKey h e)).take 49).filter
        (fun h => sameKey h e) = [] := by
      rw [List.filter_eq_nil_iff]
      intro x hx
      simp [herase x (List.take_sublist _ _ |>.subset hx)]
    rw [this]
  have hperm := (getWatchHistory_perm (saveWatchHistory e s)).filter (fun h => sameKey h e)
  rw [hraw] at hperm
  exact List.perm_singleton.mp hperm

/-- A sequence of upserts into a key-unique store keeps it key-unique. -/
theorem upsertSeq_keyUnique (es : List WatchHistoryEntry) (s : FileState)
    (hU : KeyUnique (entriesOf s)) :
    KeyUnique (entriesOf (upsertSeq es s)) := by
  induction es generalizing s with
  | nil => exact hU
  | cons e rest ih => exact ih (saveWatchHistory e s) (upsert_keyUnique e s hU)

/-- C1.  For every sequence of upsert (`saveWatchHistory`) calls starting
from a key-unique store, the persisted history stays key-unique (at most
one record per (animeId, seasonNumber, episodeNumber) key), and after one
more upsert of a record `e` — in particular one whose key already exists —
`list()` contains exactly one record with `e`'s key, holding exactly the
most recently upserted values `e`. -/
theorem upsert_retains_single_record (es : List WatchHistoryEntry)
    (e : WatchHistoryEntry) (s : FileState) (hU : KeyUnique (entriesOf s)) :
    KeyUnique (entriesOf (upsertSeq es s)) ∧
    (getWatchHistory (saveWatchHistory e (upsertSeq es s)) none).filter
      (fun h => sameKey h e) = [e] := by
  have hseq := upsertSeq_keyUnique es s hU
  exact ⟨hseq, upsert_filter e (upsertSeq es s) hseq⟩

/-- Witness for C1, the spec's own example: upsert progress 10 then
progress 80 for the key (A, 1, 1) into an empty store; the listed history
holds the single record with progress 80. -/
theorem upsert_retains_single_record_witness :
    KeyUnique (entriesOf (upsertSeq [sampleEntry 10 1000] FileState.missing)) ∧
    (getWatchHistory (saveWatchHistory (sampleEntry 80 2000)
        (upsertSeq [sampleEntry 10 1000] FileState.missing)) none).filter
      (fun h => sameKey h (sampleEntry 80 2000)) = [sampleEntry 80 2000] := by
  have h := upsert_retains_single_record [sampleEntry 10 1000] (sampleEntry 80 2000)
    FileState.missing (by decide)
  exact h

/-- C2.  The store is capped at 50 records by every upsert; and when a
51st distinct key is upserted into a full store of 50, the new entry goes
in front of the most recent 49 and the one record dropped — the last of the
newest-first listing — is (an) oldest by `watchedAt` among the stored
records. -/
theorem upsert_cap_evicts_oldest (e : WatchHistoryEntry) (s : FileState)
    (h50 : (getWatchHistory s none).length = 50)
    (hnew : ∀ h ∈ getWatchHistory s none, sameKey h e = false) :
    (∀ (e' : WatchHistoryEntry) (s' : FileState),
      (entriesOf (saveWatchHistory e' s')).length ≤ 50) ∧
    entriesOf (saveWatchHistory e s) = e :: (getWatchHistory s none).take 49 ∧
    (entriesOf (saveWatchHistory e s)).length = 50 ∧
    ∀ dropped ∈ (getWatchHistory s none).drop 49,
      ∀ h ∈ getWatchHistory s none, dropped.watchedAt ≤ h.watchedAt := by
  refine ⟨?_, ?_, ?_, ?_⟩
  · intro e' s'
    simp only [saveWatchHistory, entriesOf]
    exact List.length_take_le 50 _
  · rw [entriesOf_saveWatchHistory,
      List.eraseP_of_forall_not (by simpa using hnew)]
  · rw [entriesOf_saveWatchHistory,
      List.eraseP_of_forall_not (by simpa using hnew)]
    simp [List.length_take, h50]
  · intro dropped hdropped h hmem
    have hsorted := getWatchHistory_sorted s none
    have hsplit := List.pairwise_append.mp
      (by rw [List.take_append_drop 49 (getWatchHistory s none)]; exact hsorted)
    have hmem' : h ∈ (getWatchHistory s none).take 49 ++ (getWatchHistory s none).drop 49 := by
      rw [List.take_append_drop 49 (getWatchHistory s none)]; exact hmem
    rcases List.mem_append.mp hmem' with htake | hdrop
    · exact hsplit.2.2 h htake dropped hdropped
    · have hlen : ((getWatchHistory s none).drop 49).length = 1 := by
        rw [List.length_drop, h50]
      rcases List.length_eq_one.mp hlen with ⟨d, hd⟩
      rw [hd] at hdropped hdrop
      rcases List.mem_singleton.mp hdropped
      rcases List.mem_singleton.mp hdrop
      exact le_refl _

/-- 50 records with distinct keys (A, 1, i+1), already newest-first. -/
def fullStoreEntries : List WatchHistoryEntry :=
  (List.range 50).map fun i =>
    { animeId := "A", animeTitle := "Title", animeSlug := "a", seasonNumber := 1,
      episodeNumber := i + 1, episodeTitle := "Ep", fansubName := "Sub",
      watchedAt := 1000 - i, progress := 0, timePos := 0, duration := 0 }

/-- A 51st record with a fresh key (A, 1, 100). -/
def fiftyFirstEntry : WatchHistoryEntry :=
  { animeId := "A", animeTitle := "Title", animeSlug := "a", seasonNumber := 1,
    episodeNumber := 100, episodeTitle := "Ep", fansubName := "Sub",
    watchedAt := 2000, progress := 0, timePos := 0, duration := 0 }

/-- Witness for C2 at a concrete full store of 50 distinct keys. -/
theorem upsert_cap_evicts_oldest_witness :
    (∀ (e' : WatchHistoryEntry) (s' : FileState),
      (entriesOf (saveWatchHistory e' s')).length ≤ 50) ∧
    entriesOf (saveWatchHistory fiftyFirstEntry (FileState.ok fullStoreEntries)) =
      fiftyFirstEntry :: (getWatchHistory (FileState.ok fullStoreEntries) none).take 49 ∧
    (entriesOf (saveWatchHistory fiftyFirstEntry (FileState.ok fullStoreEntries))).length = 50 ∧
    ∀ dropped ∈ (getWatchHistory (FileState.ok fullStoreEntries) none).drop 49,
      ∀ h ∈ getWatchHistory (FileState.ok fullStoreEntries) none,
        dropped.watchedAt ≤ h.watchedAt :=
  upsert_cap_evicts_oldest fiftyFirstEntry (FileState.ok fullStoreEntries)
    (by decide) (by decide)

/-- C3.  The engine auto-plays an episode `nextEpisode` after playback if
and only if the configuration's `autoPlayNextEpisode` flag is set, the
playback result's progress is at least 85, the episode detail reports a
next episode, and the catalog's episode listing contains the episode
numbered `episodeNumber + 1` (which is the one played): progress 90 with
the flag and a next episode advances, progress 80 does not. -/
theorem auto_advance_iff (config : AppConfig) (playbackResult : PlaybackProgress)
    (episodeDetail : Option EpisodeDetail) (episodes : List Episode)
    (episode nextEpisode : Episode) :
    autoAdvanceTarget config playbackResult episodeDetail episodes episode =
        some nextEpisode ↔
      (config.autoPlayNextEpisode = true ∧ 85 ≤ playbackResult.progress ∧
       (episodeDetail.map EpisodeDetail.hasNextEpisode).getD false = true ∧
       episodes.find? (fun e => e.episodeNumber == episode.episodeNumber + 1) =
         some nextEpisode ∧
       nextEpisode.episodeNumber = episode.episodeNumber + 1) := by
  unfold autoAdvanceTarget
  by_cases hc : (config.autoPlayNextEpisode && decide (85 ≤ playbackResult.progress) &&
      ((episodeDetail.map EpisodeDetail.hasNextEpisode).getD false)) = true
  · rw [if_pos hc]
    simp only [Bool.and_eq_true, decide_eq_true_eq] at hc
    constructor
    · intro hfind
      refine ⟨hc.1.1, hc.1.2, hc.2, hfind, ?_⟩
      have := List.find?_some hfind
      simpa using this
    · intro h
      exact h.2.2.2.1
  · rw [if_neg hc]
    constructor
    · intro h
      cases h
    · rintro ⟨h1, h2, h3, -, -⟩
      exact absurd (by simp [h1, h2, h3]) hc

/-- C5.  Whenever the reconciled final result has positive `timePos` and
`duration`, its `progress` is `Math.round(timePos / duration * 100)` —
recomputed, whatever the snapshot's raw `percent_pos` held. -/
theorem playback_progress_recomputed (file : Option ProgressFileData)
    (ht : 0 < (readFinalProgress file).timePos)
    (hd : 0 < (readFinalProgress file).duration) :
    (readFinalProgress file).progress =
      jsRound ((((readFinalProgress file).timePos : ℚ) /
        ((readFinalProgress file).duration : ℚ)) * 100) := by
  match file with
  | none => simp [readFinalProgress] at ht
  | some d =>
      by_cases hcond : 0 < jsRound d.duration ∧ 0 < jsRound d.time_pos
      · simp [readFinalProgress, hcond]
      · exfalso
        apply hcond
        constructor
        · simpa [readFinalProgress] using hd
        · simpa [readFinalProgress] using ht

/-- `Math.round` of a whole number of seconds is that number. -/
theorem jsRound_natCast (n : ℕ) : jsRound (n : ℚ) = n := by
  unfold jsRound
  rw [Int.floor_eq_iff]
  constructor
  · push_cast; linarith
  · push_cast; linarith

/-- The concrete reconciliation of the spec's example snapshot. -/
theorem readFinalProgress_example :
    readFinalProgress (some ⟨720, 1440, 13⟩) =
      { progress := 50, timePos := 720, duration := 1440 } := by
  have h720 : jsRound (720 : ℚ) = 720 := by
    have : (720 : ℚ) = ((720 : ℕ) : ℚ) := by norm_num
    rw [this, jsRound_natCast]; norm_num
  have h1440 : jsRound (1440 : ℚ) = 1440 := by
    have : (1440 : ℚ) = ((1440 : ℕ) : ℚ) := by norm_num
    rw [this, jsRound_natCast]; norm_num
  simp only [readFinalProgress, h720, h1440]
  rw [if_pos (by norm_num)]
  have harg : (((720 : ℤ) : ℚ) / ((1440 : ℤ) : ℚ)) * 100 = ((50 : ℕ) : ℚ) := by norm_num
  rw [harg, jsRound_natCast]
  norm_num

/-- Witness for C5, the spec's example: a snapshot with `time_pos = 720`,
`duration = 1440` and a stale raw percent of 13 yields progress 50. -/
theorem playback_progress_recomputed_witness :
    0 < (readFinalProgress (some ⟨720, 1440, 13⟩)).timePos ∧
    0 < (readFinalProgress (some ⟨720, 1440, 13⟩)).duration ∧
    (readFinalProgress (some ⟨720, 1440, 13⟩)).progress =
      jsRound ((((readFinalProgress (some ⟨720, 1440, 13⟩)).timePos : ℚ) /
        ((readFinalProgress (some ⟨720, 1440, 13⟩)).duration : ℚ)) * 100) ∧
    (readFinalProgress (some ⟨720, 1440, 13⟩)).progress = 50 := by
  have ht : 0 < (readFinalProgress (some ⟨720, 1440, 13⟩)).timePos := by
    rw [readFinalProgress_example]; norm_num
  have hd : 0 < (readFinalProgress (some ⟨720, 1440, 13⟩)).duration := by
    rw [readFinalProgress_example]; norm_num
  refine ⟨ht, hd, playback_progress_recomputed (some ⟨720, 1440, 13⟩) ht hd, ?_⟩
  rw [readFinalProgress_example]

/-- C6.  A periodic snapshot written while the duration (and the `length`
fallback) is unknown but `time_pos` is a positive whole number `t` of
seconds reports the estimated percentage `min (100 * t / 1440) 99`
(1440 s = 24 min assumed episode length, capped at 99) and is flagged
`estimated`. -/
theorem estimated_progress_capped (props : MpvLiveProps) (status : String) (now : ℕ)
    (t : ℕ) (hd : props.duration = 0) (hl : props.length = 0)
    (ht : props.time_pos = (t : ℚ)) (ht0 : 0 < t) :
    (write_progress props status now).percent_pos = ((min ((100 * t) / 1440) 99 : ℕ) : ℤ) ∧
    (write_progress props status now).estimated = true := by
  have htq : (0 : ℚ) < props.time_pos := by
    rw [ht]; exact_mod_cast ht0
  have hdur : (if props.duration = 0 then props.length else props.duration) = 0 := by
    rw [hd, hl, if_pos rfl]
  have hfloor : ⌊(props.time_pos / (24 * 60)) * 100⌋ = (((100 * t) / 1440 : ℕ) : ℤ) := by
    have harg : (props.time_pos / (24 * 60)) * 100 =
        (((100 * t : ℕ) : ℚ) / ((1440 : ℕ) : ℚ)) := by
      rw [ht]; push_cast; ring
    rw [harg, Rat.floor_natCast_div_natCast]
    norm_cast
  constructor
  · simp only [write_progress, hdur]
    rw [if_pos ⟨trivial, htq⟩]
    rcases le_total ((props.time_pos / (24 * 60)) * 100) (99 : ℚ) with hle | hge
    · rw [min_eq_left hle, hfloor]
      have hle' : ((100 * t) / 1440 : ℕ) ≤ 99 := by
        have : (((100 * t) / 1440 : ℕ) : ℤ) ≤ ((99 : ℕ) : ℤ) := by
          calc (((100 * t) / 1440 : ℕ) : ℤ) = ⌊(props.time_pos / (24 * 60)) * 100⌋ :=
                hfloor.symm
            _ ≤ ⌊(99 : ℚ)⌋ := Int.floor_mono hle
            _ = ((99 : ℕ) : ℤ) := by norm_num
        exact_mod_cast this
      rw [min_eq_left hle']
    · rw [min_eq_right hge]
      have hge' : 99 ≤ ((100 * t) / 1440 : ℕ) := by
        have : ((99 : ℕ) : ℤ) ≤ (((100 * t) / 1440 : ℕ) : ℤ) := by
          calc ((99 : ℕ) : ℤ) = ⌊(99 : ℚ)⌋ := by norm_num
            _ ≤ ⌊(props.time_pos / (24 * 60)) * 100⌋ := Int.floor_mono hge
            _ = (((100 * t) / 1440 : ℕ) : ℤ) := hfloor
        exact_mod_cast this
      rw [min_eq_right hge']
      norm_num
  · simp only [write_progress, hdur]
    simp [htq]

/-- Witness for C6, the spec's example: `duration = 0`, `time_pos = 300`
yields an estimated percentage of 20 with the `estimated` flag set. -/
theorem estimated_progress_capped_witness :
    (write_progress ⟨300, 0, 0, 0⟩ "playing" 0).percent_pos = 20 ∧
    (write_progress ⟨300, 0, 0, 0⟩ "playing" 0).estimated = true := by
  have h := estimated_progress_capped ⟨300, 0, 0, 0⟩ "playing" 0 300 rfl rfl
    (by norm_num) (by norm_num)
  exact ⟨by rw [h.1]; norm_num, h.2⟩

/-- Counterexample to C7.  The shutdown handler consults the stored
snapshot only when a live value reads 0: with live values
`time-pos = 100`, `duration = 1440`, `percent-pos = 7` and a prior
non-finished snapshot holding `time_pos = 600`, the `finished` snapshot
reports `time_pos = 100` — smaller than the prior snapshot's 600. -/
theorem finished_snapshot_regresses :
    (finalizeShutdown 100 1440 7
        (some { time_pos := 600, duration := 1440, percent_pos := 41 }) 0).time_pos = 100 ∧
    (100 : ℤ) < 600 := by
  constructor
  · simp only [finalizeShutdown]
    rw [if_neg (by norm_num)]
    simp
  · norm_num

/-- C7 amended.  Only when the live `time-pos` or `duration` reads 0 does
the `finished` snapshot fall back to the stored snapshot, taking the
maximum of live and stored values — so in that case it never reports a
smaller `timePos` than the prior snapshot (live 0/0 with prior 600/1440
yields 600/1440).  When both live values are positive the stored snapshot
is ignored, and the final `timePos` can regress (see the
counterexample). -/
theorem finished_snapshot_fallback (liveTime liveDuration livePercent : ℚ)
    (e : StoredSnapshot) (now : ℕ) (h : liveTime = 0 ∨ liveDuration = 0) :
    (finalizeShutdown liveTime liveDuration livePercent (some e) now).time_pos =
      ⌊max liveTime e.time_pos⌋ ∧
    (finalizeShutdown liveTime liveDuration livePercent (some e) now).duration =
      ⌊max liveDuration e.duration⌋ ∧
    ⌊e.time_pos⌋ ≤
      (finalizeShutdown liveTime liveDuration livePercent (some e) now).time_pos := by
  have h1 : (finalizeShutdown liveTime liveDuration livePercent (some e) now).time_pos =
      ⌊max liveTime e.time_pos⌋ := by
    simp only [finalizeShutdown]
    rw [if_pos h]
  have h2 : (finalizeShutdown liveTime liveDuration livePercent (some e) now).duration =
      ⌊max liveDuration e.duration⌋ := by
    simp only [finalizeShutdown]
    rw [if_pos h]
  refine ⟨h1, h2, ?_⟩
  rw [h1]
  exact Int.floor_mono (le_max_right _ _)

/-- Witness for the amended C7, the spec's example: live values 0/0/0 with
a prior snapshot 600/1440/41 finalize to time 600 and duration 1440. -/
theorem finished_snapshot_fallback_witness :
    (finalizeShutdown 0 0 0
        (some { time_pos := 600, duration := 1440, percent_pos := 41 }) 0).time_pos = 600 ∧
    (finalizeShutdown 0 0 0
        (some { time_pos := 600, duration := 1440, percent_pos := 41 }) 0).duration = 1440 := by
  have h := finished_snapshot_fallback 0 0 0
    { time_pos := 600, duration := 1440, percent_pos := 41 } 0 (Or.inl rfl)
  refine ⟨?_, ?_⟩
  · rw [h.1]
    rw [show max (0 : ℚ) 600 = ((600 : ℕ) : ℚ) by norm_num, Int.floor_natCast]
    norm_num
  · rw [h.2.1]
    rw [show max (0 : ℚ) 1440 = ((1440 : ℕ) : ℚ) by norm_num, Int.floor_natCast]
    norm_num

/-- C9.  `getWatchHistory` never propagates an error: a missing backing
file and any state whose read or parse throws (the `catch` path) both
yield the empty list, for every limit. -/
theorem history_load_fails_soft (limit : Option Nat) :
    getWatchHistory FileState.missing limit = [] ∧
    getWatchHistory FileState.corrupt limit = [] :=
  ⟨rfl, rfl⟩

/-- The fold behind `getContinueWatchingSuggestions` appends a sublist of
its input to the accumulator. -/
theorem foldl_insertIfNew_append :
    ∀ (l acc : List WatchHistoryEntry),
      ∃ l', List.Sublist l' l ∧ List.foldl insertIfNew acc l = acc ++ l' := by
  intro l
  induction l with
  | nil => intro acc; exact ⟨[], List.nil_sublist _, by simp⟩
  | cons e rest ih =>
      intro acc
      by_cases hmem : acc.any (fun x => x.animeId == e.animeId) = true
      · rcases ih acc with ⟨l', hsub, heq⟩
        exact ⟨l', hsub.cons e, by simp [insertIfNew, hmem, heq]⟩
      · rcases ih (acc ++ [e]) with ⟨l', hsub, heq⟩
        exact ⟨e :: l', hsub.cons₂ e, by simp [insertIfNew, hmem, heq]⟩

/-- Entries the fold adds beyond the accumulator carry an `animeId` absent
from the accumulator. -/
theorem foldl_insertIfNew_new_ids :
    ∀ (l acc : List WatchHistoryEntry) (r : WatchHistoryEntry),
      r ∈ List.foldl insertIfNew acc l → r ∉ acc →
      ∀ a ∈ acc, a.animeId ≠ r.animeId := by
  intro l
  induction l with
  | nil =>
      intro acc r hr hnot
      exact absurd (by simpa using hr) hnot
  | cons e rest ih =>
      intro acc r hr hnot a ha
      by_cases hmem : acc.any (fun x => x.animeId == e.animeId) = true
      · rw [show List.foldl insertIfNew acc (e :: rest) = List.foldl insertIfNew acc rest
            from by simp [insertIfNew, hmem]] at hr
        exact ih acc r hr hnot a ha
      · rw [show List.foldl insertIfNew acc (e :: rest) =
              List.foldl insertIfNew (acc ++ [e]) rest
            from by simp [insertIfNew, hmem]] at hr
        by_cases hre : r ∈ acc ++ [e]
        · have hr_e : r = e := by
            rcases List.mem_append.mp hre with h | h
            · exact absurd h hnot
            · simpa using h
          subst hr_e
          intro hEq
          exact hmem (List.any_eq_true.mpr ⟨a, ha, by simp [hEq]⟩)
        · exact ih (acc ++ [e]) r hr hre a (List.mem_append_left _ ha)

/-- The fold never produces two entries with the same `animeId`. -/
theorem foldl_insertIfNew_pairwise :
    ∀ (l acc : List WatchHistoryEntry),
      acc.Pairwise (fun a b => a.animeId ≠ b.animeId) →
      (List.foldl insertIfNew acc l).Pairwise (fun a b => a.animeId ≠ b.animeId) := by
  intro l
  induction l with
  | nil => intro acc h; exact h
  | cons e rest ih =>
      intro acc hacc
      by_cases hmem : acc.any (fun x => x.animeId == e.animeId) = true
      · rw [show List.foldl insertIfNew acc (e :: rest) = List.foldl insertIfNew acc rest
            from by simp [insertIfNew, hmem]]
        exact ih acc hacc
      · rw [show List.foldl insertIfNew acc (e :: rest) =
              List.foldl insertIfNew (acc ++ [e]) rest
            from by simp [insertIfNew, hmem]]
        apply ih
        rw [List.pairwise_append]
        refine ⟨hacc, List.pairwise_singleton _ _, ?_⟩
        intro a ha b hb
        rcases List.mem_singleton.mp hb with rfl
        intro hEq
        exact hmem (List.any_eq_true.mpr ⟨a, ha, by simp [hEq]⟩)

/-- Over a newest-first input, every entry the fold keeps is at least as
recent as every input entry with the same `animeId`. -/
theorem foldl_insertIfNew_recency :
    ∀ (l acc : List WatchHistoryEntry),
      List.Sorted byRecency l →
      (∀ a ∈ acc, ∀ g ∈ l, g.animeId = a.animeId → g.watchedAt ≤ a.watchedAt) →
      ∀ r ∈ List.foldl insertIfNew acc l, ∀ g ∈ l,
        g.animeId = r.animeId → g.watchedAt ≤ r.watchedAt := by
  intro l
  induction l with
  | nil =>
      intro acc _ _ r _ g hg
      exact absurd hg (List.not_mem_nil g)
  | cons e rest ih =>
      intro acc hsort hacc r hr g hg hid
      obtain ⟨hehead, hrest⟩ := List.sorted_cons.mp hsort
      by_cases hmem : acc.any (fun x => x.animeId == e.animeId) = true
      · rw [show List.foldl insertIfNew acc (e :: rest) = List.foldl insertIfNew acc rest
            from by simp [insertIfNew, hmem]] at hr
        have hacc' : ∀ a ∈ acc, ∀ g' ∈ rest, g'.animeId = a.animeId →
            g'.watchedAt ≤ a.watchedAt :=
          fun a ha g' hg' => hacc a ha g' (List.mem_cons_of_mem _ hg')
        rcases List.mem_cons.mp hg with rfl | hg'
        · by_cases hracc : r ∈ acc
          · exact hacc r hracc g (List.mem_cons_self _ _) hid
          · exfalso
            rcases List.any_eq_true.mp hmem with ⟨a, ha, haid⟩
            apply foldl_insertIfNew_new_ids rest acc r hr hracc a ha
            have haid' : a.animeId = g.animeId := by simpa using haid
            rw [haid', hid]
        · exact ih acc hrest hacc' r hr g hg' hid
      · rw [show List.foldl insertIfNew acc (e :: rest) =
              List.foldl insertIfNew (acc ++ [e]) rest
            from by simp [insertIfNew, hmem]] at hr
        have hacc' : ∀ a ∈ acc ++ [e], ∀ g' ∈ rest, g'.animeId = a.animeId →
            g'.watchedAt ≤ a.watchedAt := by
          intro a ha g' hg' hid'
          rcases List.mem_append.mp ha with ha' | ha'
          · exact hacc a ha' g' (List.mem_cons_of_mem _ hg') hid'
          · rcases List.mem_singleton.mp ha' with rfl
            exact hehead g' hg'
        rcases List.mem_cons.mp hg with rfl | hg'
        · by_cases hracc : r ∈ acc ++ [g]
          · rcases List.mem_append.mp hracc with hra | hre
            · exact hacc r hra g (List.mem_cons_self _ _) hid
            · rcases List.mem_singleton.mp hre with rfl
              exact le_refl _
          · exfalso
            exact foldl_insertIfNew_new_ids rest (acc ++ [g]) r hr hracc g (by simp) hid
        · exact ih (acc ++ [e]) hrest hacc' r hr g hg' hid

/-- C8.  `getContinueWatchingSuggestions()` returns at most 5 records,
never two with the same `animeId`, ordered newest-first, and each returned
record is a stored record at least as recent as every stored record of the
same anime. -/
theorem continue_suggestions_spec (s : FileState) :
    (getContinueWatchingSuggestions s).length ≤ 5 ∧
    (getContinueWatchingSuggestions s).Pairwise (fun a b => a.animeId ≠ b.animeId) ∧
    List.Sorted byRecency (getContinueWatchingSuggestions s) ∧
    ∀ x ∈ getContinueWatchingSuggestions s,
      x ∈ getWatchHistory s none ∧
      ∀ g ∈ getWatchHistory s none, g.animeId = x.animeId →
        g.watchedAt ≤ x.watchedAt := by
  obtain ⟨l', hsub, heq⟩ := foldl_insertIfNew_append (getWatchHistory s none) []
  have hres : getContinueWatchingSuggestions s = l'.take 5 := by
    simp only [getContinueWatchingSuggestions, heq, List.nil_append]
  have hpl' : l'.Pairwise (fun a b => a.animeId ≠ b.animeId) := by
    have hp := foldl_insertIfNew_pairwise (getWatchHistory s none) [] List.Pairwise.nil
    rw [heq, List.nil_append] at hp
    exact hp
  refine ⟨?_, ?_, ?_, ?_⟩
  · rw [hres]
    exact List.length_take_le 5 l'
  · rw [hres]
    exact List.Pairwise.sublist (List.take_sublist 5 l') hpl'
  · rw [hres]
    have hsorted : List.Sorted byRecency l' :=
      List.Pairwise.sublist hsub (getWatchHistory_sorted s none)
    exact List.Pairwise.sublist (List.take_sublist 5 l') hsorted
  · intro x hx
    rw [hres] at hx
    have hxl' : x ∈ l' := (List.take_sublist 5 l').subset hx
    refine ⟨hsub.subset hxl', ?_⟩
    intro g hg hgid
    have hxfold : x ∈ List.foldl insertIfNew [] (getWatchHistory s none) := by
      rw [heq, List.nil_append]
      exact hxl'
    exact foldl_insertIfNew_recency (getWatchHistory s none) []
      (getWatchHistory_sorted s none) (by simp) x hxfold g hg hgid

/-- After any upsert, `getWatchHistory(5)` is non-empty. -/
theorem getWatchHistory_after_upsert_pos (e : WatchHistoryEntry) (s : FileState) :
    0 < (getWatchHistory (saveWatchHistory e s) (some 5)).length := by
  simp [saveWatchHistory, getWatchHistory, List.length_take, List.orderedInsert_length]

/-- Counterexample to C4.  With `enableHistory = false` the playback flow
still writes the History Store: after the `'play'` branch's two
`saveToHistory` calls on an empty store, `list()` is non-empty (the
configuration is never consulted on the write path). -/
theorem history_written_despite_disabled :
    ({ DEFAULT_CONFIG with enableHistory := false } : AppConfig).enableHistory = false ∧
    getWatchHistory (playBranchWrites { DEFAULT_CONFIG with enableHistory := false }
        (some { id := "A", english := "Title", turkish := "", romaji := "" })
        (some { fansubs := [{ id := "f", name := "Sub" }], hasNextEpisode := true })
        "a" { title := "Ep 1", seasonNumber := 1, episodeNumber := 1 } "f"
        { progress := 50, timePos := 300, duration := 1440 } 1 2 FileState.missing)
      none ≠ [] := by
  exact ⟨rfl, by decide⟩

/-- C4 amended.  `enableHistory` is declared in the configuration but never
consulted: for any configuration with `enableHistory = false` the playback
flow still performs both history writes — afterwards the store holds
exactly the final reconciled record for the episode's key — and the main
menu still offers the history option off the stored records instead of
behaving as if there were no history. -/
theorem history_written_regardless_of_config (config : AppConfig)
    (ad : AnimeDetail) (ed : EpisodeDetail) (slug : String) (episode : Episode)
    (fansubId : String) (res : PlaybackProgress) (t0 t1 : Nat) (s : FileState)
    (_hcfg : config.enableHistory = false) (hU : KeyUnique (entriesOf s)) :
    (getWatchHistory (playBranchWrites config (some ad) (some ed) slug episode
        fansubId res t0 t1 s) none).filter
      (fun h => sameKey h
        (mkSaveEntry ad ed slug episode fansubId res.progress res.timePos res.duration t1)) =
      [mkSaveEntry ad ed slug episode fansubId res.progress res.timePos res.duration t1] ∧
    MenuOption.history ∈ showMainMenuChoices config
      (playBranchWrites config (some ad) (some ed) slug episode fansubId res t0 t1 s) := by
  have hstep : playBranchWrites config (some ad) (some ed) slug episode fansubId res t0 t1 s =
      saveWatchHistory
        (mkSaveEntry ad ed slug episode fansubId res.progress res.timePos res.duration t1)
        (saveWatchHistory (mkSaveEntry ad ed slug episode fansubId 0 0 0 t0) s) := rfl
  have hU1 : KeyUnique (entriesOf
      (saveWatchHistory (mkSaveEntry ad ed slug episode fansubId 0 0 0 t0) s)) :=
    upsert_keyUnique _ s hU
  constructor
  · rw [hstep]
    exact upsert_filter _ _ hU1
  · rw [hstep]
    have hlen := getWatchHistory_after_upsert_pos
      (mkSaveEntry ad ed slug episode fansubId res.progress res.timePos res.duration t1)
      (saveWatchHistory (mkSaveEntry ad ed slug episode fansubId 0 0 0 t0) s)
    simp only [showMainMenuChoices, if_pos hlen]
    simp

/-- Witness for the amended C4 at a concrete configuration with
`enableHistory = false` and an empty store. -/
theorem history_written_regardless_of_config_witness :
    (getWatchHistory (playBranchWrites { DEFAULT_CONFIG with enableHistory := false }
        (some { id := "A", english := "Title", turkish := "", romaji := "" })
        (some { fansubs := [{ id := "f", name := "Sub" }], hasNextEpisode := true })
        "a" { title := "Ep 1", seasonNumber := 1, episodeNumber := 1 } "f"
        { progress := 50, timePos := 300, duration := 1440 } 1 2 FileState.missing)
      none).filter
      (fun h => sameKey h
        (mkSaveEntry { id := "A", english := "Title", turkish := "", romaji := "" }
          { fansubs := [{ id := "f", name := "Sub" }], hasNextEpisode := true }
          "a" { title := "Ep 1", seasonNumber := 1, episodeNumber := 1 } "f" 50 300 1440 2)) =
      [mkSaveEntry { id := "A", english := "Title", turkish := "", romaji := "" }
        { fansubs := [{ id := "f", name := "Sub" }], hasNextEpisode := true }
        "a" { title := "Ep 1", seasonNumber := 1, episodeNumber := 1 } "f" 50 300 1440 2] ∧
    MenuOption.history ∈ showMainMenuChoices { DEFAULT_CONFIG with enableHistory := false }
      (playBranchWrites { DEFAULT_CONFIG with enableHistory := false }
        (some { id := "A", english := "Title", turkish := "", romaji := "" })
        (some { fansubs := [{ id := "f", name := "Sub" }], hasNextEpisode := true })
        "a" { title := "Ep 1", seasonNumber := 1, episodeNumber := 1 } "f"
        { progress := 50, timePos := 300, duration := 1440 } 1 2 FileState.missing) :=
  history_written_regardless_of_config { DEFAULT_CONFIG with enableHistory := false }
    { id := "A", english := "Title", turkish := "", romaji := "" }
    { fansubs := [{ id := "f", name := "Sub" }], hasNextEpisode := true }
    "a" { title := "Ep 1", seasonNumber := 1, episodeNumber := 1 } "f"
    { progress := 50, timePos := 300, duration := 1440 } 1 2 FileState.missing
    rfl (by decide)

/-- C10.  The `'copy'` branch upserts a record with progress 100,
`timePos = 0` and `duration = 0` for the episode's key, and afterwards the
store holds exactly that record for the key — any prior partial-progress
record is overwritten. -/
theorem copy_marks_episode_watched (ad : AnimeDetail) (ed : EpisodeDetail)
    (slug : String) (episode : Episode) (fansubId : String) (now : Nat)
    (s : FileState) (hU : KeyUnique (entriesOf s)) :
    (mkSaveEntry ad ed slug episode fansubId 100 0 0 now).progress = 100 ∧
    (mkSaveEntry ad ed slug episode fansubId 100 0 0 now).timePos = 0 ∧
    (mkSaveEntry ad ed slug episode fansubId 100 0 0 now).duration = 0 ∧
    (getWatchHistory (copyUrlAction (some ad) (some ed) slug episode fansubId now s)
        none).filter
      (fun h => sameKey h (mkSaveEntry ad ed slug episode fansubId 100 0 0 now)) =
      [mkSaveEntry ad ed slug episode fansubId 100 0 0 now] := by
  refine ⟨rfl, rfl, rfl, ?_⟩
  exact upsert_filter _ _ hU

/-- Witness for C10: copying the URL over a stored 40%-progress record for
the same key (A, 1, 1) leaves exactly the progress-100 record. -/
theorem copy_marks_episode_watched_witness :
    (mkSaveEntry { id := "A", english := "Title", turkish := "", romaji := "" }
      { fansubs := [{ id := "f", name := "Sub" }], hasNextEpisode := true }
      "a" { title := "Ep 1", seasonNumber := 1, episodeNumber := 1 } "f"
      100 0 0 5000).progress = 100 ∧
    (mkSaveEntry { id := "A", english := "Title", turkish := "", romaji := "" }
      { fansubs := [{ id := "f", name := "Sub" }], hasNextEpisode := true }
      "a" { title := "Ep 1", seasonNumber := 1, episodeNumber := 1 } "f"
      100 0 0 5000).timePos = 0 ∧
    (mkSaveEntry { id := "A", english := "Title", turkish := "", romaji := "" }
      { fansubs := [{ id := "f", name := "Sub" }], hasNextEpisode := true }
      "a" { title := "Ep 1", seasonNumber := 1, episodeNumber := 1 } "f"
      100 0 0 5000).duration = 0 ∧
    (getWatchHistory (copyUrlAction
        (some { id := "A", english := "Title", turkish := "", romaji := "" })
        (some { fansubs := [{ id := "f", name := "Sub" }], hasNextEpisode := true })
        "a" { title := "Ep 1", seasonNumber := 1, episodeNumber := 1 } "f" 5000
        (FileState.ok [sampleEntry 40 1000])) none).filter
      (fun h => sameKey h
        (mkSaveEntry { id := "A", english := "Title", turkish := "", romaji := "" }
          { fansubs := [{ id := "f", name := "Sub" }], hasNextEpisode := true }
          "a" { title := "Ep 1", seasonNumber := 1, episodeNumber := 1 } "f"
          100 0 0 5000)) =
      [mkSaveEntry { id := "A", english := "Title", turkish := "", romaji := "" }
        { fansubs := [{ id := "f", name := "Sub" }], hasNextEpisode := true }
        "a" { title := "Ep 1", seasonNumber := 1, episodeNumber := 1 } "f"
        100 0 0 5000] :=
  copy_marks_episode_watched { id := "A", english := "Title", turkish := "", romaji := "" }
    { fansubs := [{ id := "f", name := "Sub" }], hasNextEpisode := true }
    "a" { title := "Ep 1", seasonNumber := 1, episodeNumber := 1 } "f" 5000
    (FileState.ok [sampleEntry 40 1000]) (by decide)

end OpenAnime
